import Mathlib

/-!
Verification of the regional de-novo assembly orchestration module
(`bcbio/variation/cortex.py`).

The module coordinates per-region variant calling with cortex_var: it extracts
reads and a local reference per region, gates regions on read depth, invokes the
external assembler, remaps region-local variant coordinates back to global
coordinates, and merges per-region results.  The definitions below are a shallow
embedding of that control logic: pure string/list manipulations are translated
directly; filesystem- and subprocess-dependent steps are modelled by passing the
relevant observations (does the output exist, which reads are in the region,
which files matched the output glob) as explicit inputs, and recording the
variant-file writes the code would perform as explicit output.
-/

namespace BcbioCortex

/-! ### Python string primitives

Models of the Python `str` operations the module uses (`split`, `startswith`,
`int(...)`, `str(...)` on integers, `"".join`).  Strings are handled through
their character lists so that every definition evaluates by kernel reduction.
-/

/-- Python `s.split(sep)` for a single-character separator: splits on every
occurrence, keeping empty fields (so `"a\t\tb"` gives three fields). -/
def splitChar (c : Char) : List Char → List (List Char)
  | [] => [[]]
  | x :: xs =>
    match splitChar c xs with
    | [] => [[]]
    | h :: t => if x == c then [] :: h :: t else (x :: h) :: t

/-- Python `line.split("\t")`. -/
def splitTab (s : String) : List String :=
  (splitChar '\t' s.data).map String.mk

/-- Python `s.split("_")`. -/
def splitUnderscore (s : String) : List String :=
  (splitChar '_' s.data).map String.mk

/-- Python `s.startswith(p)`. -/
def strStartsWith (s p : String) : Bool :=
  p.data.isPrefixOf s.data

/-- Decimal value of a digit list (helper for `parseInt?`). -/
def digitsToNat (ds : List Char) : Nat :=
  ds.foldl (fun a c => a * 10 + (c.toNat - 48)) 0

/-- Python `int(s)` on a decimal string; `none` models the `ValueError` raised
on a malformed number. -/
def parseInt? (s : String) : Option Int :=
  match s.data with
  | [] => none
  | '-' :: ds =>
    if ds.isEmpty then none
    else if ds.all Char.isDigit then some (-(digitsToNat ds : Int)) else none
  | ds => if ds.all Char.isDigit then some (digitsToNat ds : Int) else none

/-- Python `s[::-1]`-style reversal (used for quality strings via
`list(...).reverse()`). -/
def strReverse (s : String) : String :=
  String.mk s.data.reverse

/-! ### POSIX path helpers

Models of the `os.path` functions the module calls (`basename`, `dirname`,
`join`, `splitext`), following CPython's `posixpath` definitions. -/

/-- Index of the last occurrence of `c` in `cs` (Python `str.rfind`,
with `none` for -1). -/
def rfindIdx (cs : List Char) (c : Char) : Option Nat :=
  match cs.reverse.findIdx? (· == c) with
  | none => none
  | some j => some (cs.length - 1 - j)

/-- `os.path.basename`: everything after the last slash. -/
def basename (p : String) : String :=
  match rfindIdx p.data '/' with
  | none => p
  | some i => String.mk (p.data.drop (i + 1))

/-- `os.path.dirname`: everything up to the last slash, with trailing slashes
stripped unless the result is all slashes. -/
def dirname (p : String) : String :=
  let cs := p.data
  let head :=
    match rfindIdx cs '/' with
    | none => ([] : List Char)
    | some i => cs.take (i + 1)
  if head.isEmpty then String.mk head
  else if head.all (· == '/') then String.mk head
  else String.mk ((head.reverse.dropWhile (· == '/')).reverse)

/-- `os.path.join` for two components. -/
def joinPath (a b : String) : String :=
  if strStartsWith b "/" then b
  else if a = "" ∨ a.data.getLast? = some '/' then a ++ b
  else a ++ "/" ++ b

/-- The root part of `os.path.splitext`: drops the extension starting at the
last dot of the basename, unless that dot only leads the basename. -/
def splitextRoot (p : String) : String :=
  let cs := p.data
  match rfindIdx cs '.' with
  | none => p
  | some dotIdx =>
    let sepIdx : Int :=
      match rfindIdx cs '/' with
      | none => -1
      | some i => (i : Int)
    if sepIdx < (dotIdx : Int) then
      let between := (cs.take dotIdx).drop (sepIdx + 1).toNat
      if between.any (· != '.') then String.mk (cs.take dotIdx) else p
    else p

/-! ### Data model -/

/-- One target region: a line `contig, start, end` of the region list
(1-based inclusive coordinates). -/
structure Region where
  contig : String
  start : Int
  stop : Int
deriving DecidableEq

/-- `"{0}-{1}-{2}".format(*region)`: the per-region directory / file-name tag. -/
def regionStr (r : Region) : String :=
  r.contig ++ "-" ++ toString r.start ++ "-" ++ toString r.stop

/-- One aligned read as fetched from the BAM file: name, base sequence,
quality string and the reverse-strand flag. -/
structure Read where
  qname : String
  seq : String
  qual : String
  is_reverse : Bool
deriving DecidableEq

/-! ### Coordinate remapper (`_remap_cortex_out`, lines 79-97) -/

/-- Inner `_remap_vcf_line`: `parts = line.split("\t")`, `parts[0] = contig`,
`parts[1] = str(int(parts[1]) + start)`, rejoined by tabs.  `none` models the
exception raised when the line has fewer than two columns or a non-integer
position. -/
def _remap_vcf_line (line contig : String) (start : Int) : Option String :=
  match splitTab line with
  | _ :: pos :: rest =>
    (parseInt? pos).map
      (fun n => String.intercalate "\t" (contig :: toString (n + start) :: rest))
  | _ => none

/-- The line loop of `_remap_cortex_out`: drop `##fileDate` header lines, copy
other `#` header lines, remap data lines. -/
def remapLoop (contig : String) (start : Int) : List String → Option (List String)
  | [] => some []
  | line :: rest =>
    if strStartsWith line "##fileDate" then remapLoop contig start rest
    else if strStartsWith line "#" then
      (remapLoop contig start rest).map (fun ls => line :: ls)
    else
      (_remap_vcf_line line contig start).bind
        (fun l => (remapLoop contig start rest).map (fun ls => l :: ls))

/-- `_remap_cortex_out`: remaps the lines of the region-local cortex output to
global coordinates (`start = int(start) - 1` is added to each position). -/
def _remap_cortex_out (region : Region) (lines : List String) : Option (List String) :=
  remapLoop region.contig (region.start - 1) lines

/-! ### Read extraction (`_get_fastq_in_region`, lines 200-219) -/

/-- Biopython `Seq.complement` character table (IUPAC codes, case kept). -/
def complementChar (c : Char) : Char :=
  if c = 'A' then 'T' else if c = 'T' then 'A'
  else if c = 'C' then 'G' else if c = 'G' then 'C'
  else if c = 'a' then 't' else if c = 't' then 'a'
  else if c = 'c' then 'g' else if c = 'g' then 'c'
  else if c = 'M' then 'K' else if c = 'K' then 'M'
  else if c = 'R' then 'Y' else if c = 'Y' then 'R'
  else if c = 'V' then 'B' else if c = 'B' then 'V'
  else if c = 'H' then 'D' else if c = 'D' then 'H'
  else if c = 'm' then 'k' else if c = 'k' then 'm'
  else if c = 'r' then 'y' else if c = 'y' then 'r'
  else if c = 'v' then 'b' else if c = 'b' then 'v'
  else if c = 'h' then 'd' else if c = 'd' then 'h'
  else c

/-- Biopython `Seq.reverse_complement`: complement every base, then reverse. -/
def reverse_complement (s : String) : String :=
  String.mk ((s.data.map complementChar).reverse)

/-- The 4-line fastq record written for one read (lines 211-218): reads flagged
reverse-strand get their sequence reverse-complemented and their quality string
reversed before emission. -/
def fastq_entry (read : Read) : String :=
  let seq := if read.is_reverse then reverse_complement read.seq else read.seq
  let qual := if read.is_reverse then strReverse read.qual else read.qual
  "@" ++ read.qname ++ "\n" ++ seq ++ "\n+\n" ++ qual ++ "\n"

/-! ### Read counting (`_count_fastq_reads`, lines 223-229) -/

/-- `itertools.takewhile` over an enumerated lazy record stream, instrumented
with the number of records pulled from the underlying source: `takewhile` keeps
pulling `(i, record)` pairs until the predicate on `i` first fails, and that
final failing pull also materializes a record. -/
def takewhileCount {α : Type} (p : Nat → Bool) : List (Nat × α) → List Nat × Nat
  | [] => ([], 0)
  | (i, _) :: rest =>
    if p i then
      let r := takewhileCount p rest
      (i :: r.1, r.2 + 1)
    else ([], 1)

/-- `_count_fastq_reads` instrumented: first component is the list built by
`list(takewhile(lambda i: i <= min_reads, (i for i, _ in enumerate(...))))`,
second component is how many records the underlying fastq iterator produced. -/
def _count_fastq_scan {α : Type} (records : List α) (min_reads : Nat) : List Nat × Nat :=
  takewhileCount (fun i => decide (i ≤ min_reads)) records.enum

/-- `_count_fastq_reads`: the length of the `takewhile` list. -/
def _count_fastq_reads {α : Type} (records : List α) (min_reads : Nat) : Nat :=
  (_count_fastq_scan records min_reads).1.length

/-! ### Binary selection (`_get_cortex_binary`, lines 147-156) -/

/-- The k-mer capacity encoded in a cortex_var executable name:
`int(os.path.basename(check_bin).split("_")[2])`. -/
def cortexBinKmer (p : String) : Nat :=
  match (splitUnderscore (basename p)).get? 2 with
  | some s => ((parseInt? s).getD 0).toNat
  | none => 0

/-- Python `sorted` on a list of strings: ascending lexicographic order by
code points (modelled by the order on the character lists). -/
def pySorted (l : List String) : List String :=
  List.insertionSort (fun a b => a.data ≤ b.data) l

/-- `_get_cortex_binary`: walk the sorted glob matches and return the first
executable whose capacity is at least the requested k-mer size; `none` models
the failed assertion when no executable qualifies. -/
def _get_cortex_binary (kmer : Nat) (bins : List String) : Option String :=
  (pySorted bins).find? (fun b => decide (kmer ≤ cortexBinKmer b))

/-! ### Tool output discovery (`_run_cortex`, lines 138-145) -/

/-- The output-discovery step after the cortex subprocess returns: given the
files matching the `vcfs/{base}*FINAL*raw.vcf` glob, return `final[0]` when
there is exactly one match, else `None`; the boolean records whether the
"did not find output VCF" diagnostic is printed. -/
def _run_cortex_output (found : List String) : Option String × Bool :=
  if found.length ≠ 1 then (none, true) else (found.head?, false)

/-! ### Per-region runner (`_run_cortex_on_region`, lines 46-77) -/

/-- `min_reads = 700` (line 50). -/
def min_reads : Nat := 700

/-- The program paths read from `config["program"]` (lines 51-53). -/
structure CortexConfig where
  cortex : Option String
  stampy : Option String
  vcftools : Option String
deriving DecidableEq

/-- The filesystem/subprocess observations a region run depends on: whether the
per-region output VCF already exists, the reads fetched from the BAM for the
region (one fastq record each), and the files matching the cortex output glob
when the tool is run. -/
structure RegionEnv where
  outFileExists : Bool
  fastqReads : List Read
  globMatches : List String
deriving DecidableEq

/-- A variant-file write performed by the region runner: either
`write_empty_vcf(out_file)` or `_remap_cortex_out(src, region, out_file)`. -/
inductive RegionAction where
  | wroteEmpty (path : String)
  | remapped (src : String) (path : String)
deriving DecidableEq

/-- The path a region action writes to. -/
def actionPath : RegionAction → String
  | .wroteEmpty p => p
  | .remapped _ p => p

/-- Result of a region run: the returned path, the variant-file writes
performed, and whether the cortex toolchain was invoked. -/
structure RegionRun where
  out_file : String
  writes : List RegionAction
  toolInvoked : Bool
deriving DecidableEq

/-- `out_vcf_base` (lines 56-59): per-region base path derived from the
out-file base and the region tag. -/
def region_out_vcf_base (region : Region) (out_file_base : String) : String :=
  let region_str := regionStr region
  let base_dir := joinPath (dirname out_file_base) region_str
  joinPath base_dir (splitextRoot (basename out_file_base) ++ "-" ++ region_str)

/-- `out_file = "{0}.vcf".format(out_vcf_base)` (line 60). -/
def region_out_file (region : Region) (out_file_base : String) : String :=
  region_out_vcf_base region out_file_base ++ ".vcf"

/-- `_run_cortex_on_region`: raise if the cortex or stampy path is missing;
skip if the per-region VCF exists; write an empty VCF when the region has fewer
than `min_reads` records; otherwise run the toolchain and either remap its
unique output or write an empty VCF.  Only the variant-file writes and the tool
invocation are recorded; intermediate artifacts (fastq, local reference,
indexes) are elided. -/
def _run_cortex_on_region (cfg : CortexConfig) (env : RegionEnv) (region : Region)
    (out_file_base : String) : Except String RegionRun :=
  if cfg.cortex.isNone || cfg.stampy.isNone then
    Except.error "cortex_var requires path to pre-built cortex and stampy"
  else
    let out_file := region_out_file region out_file_base
    if env.outFileExists then Except.ok ⟨out_file, [], false⟩
    else if _count_fastq_reads (env.fastqReads.map fastq_entry) min_reads < min_reads then
      Except.ok ⟨out_file, [RegionAction.wroteEmpty out_file], false⟩
    else
      match (_run_cortex_output env.globMatches).1 with
      | some f => Except.ok ⟨out_file, [RegionAction.remapped f out_file], true⟩
      | none => Except.ok ⟨out_file, [RegionAction.wroteEmpty out_file], true⟩

/-! ### Top-level entry (`run_cortex`, lines 26-44) -/

/-- The pieces of work the top-level entry performs when the final output does
not yet exist. -/
inductive RunEffect where
  | picardIndex (bam : String)
  | regionWrites (writes : List RegionAction)
  | combineFiles (vcfs : List String) (out : String)
deriving DecidableEq

/-- Observations the top-level entry depends on: whether the final output file
exists, and each region's observations. -/
structure RunEnv where
  outExists : Bool
  renv : Region → RegionEnv

/-- The output path resolved at entry (lines 31-32): the caller's path, or
`"%s-cortex.vcf" % os.path.splitext(align_bam)[0]` when none is given. -/
def resolved_out_file (align_bam : String) : Option String → String
  | none => splitextRoot align_bam ++ "-cortex.vcf"
  | some f => f

/-- `run_cortex`: resolve the output path; do nothing when it already exists;
otherwise index the BAM, require `variant_regions`, run every region, and
combine the per-region VCFs. -/
def run_cortex (align_bam : String) (cfg : CortexConfig)
    (variant_regions : Option (List Region)) (env : RunEnv)
    (out_file0 : Option String) : Except String (String × List RunEffect) :=
  let out_file := resolved_out_file align_bam out_file0
  if env.outExists then Except.ok (out_file, [])
  else
    match variant_regions with
    | none =>
      Except.error "Only regional variant calling with cortex_var is supported. Set variant_regions"
    | some regions => do
      let runs ← regions.mapM (fun r => _run_cortex_on_region cfg (env.renv r) r out_file)
      pure (out_file,
        RunEffect.picardIndex align_bam ::
          (runs.map (fun rr => RunEffect.regionWrites rr.writes) ++
            [RunEffect.combineFiles (runs.map (fun rr => rr.out_file)) out_file]))

/-! ### Transactional write model (`_get_fastq_in_region`, lines 205-219)

The claim about crash safety needs the filesystem effect of the extraction
loop, including where a partially-written file lands if the process stops
mid-loop. -/

/-- A filesystem as an association list from path to content; the most recent
write for a path wins. -/
abbrev FileSys := List (String × String)

/-- Record a write of `content` at `path`. -/
def fsWrite (fs : FileSys) (path content : String) : FileSys :=
  (path, content) :: fs

/-- Content at `path`, if any. -/
def fsRead? (fs : FileSys) (path : String) : Option String :=
  (fs.find? (fun e => e.1 == path)).map (fun e => e.2)

/-- Modelled from the spec: `file_transaction` (from
`bcbio.distributed.transaction`, whose code is not under src/) supplies a
transactional temporary path, distinct from the final path, and atomically
promotes what was written there to the final path on successful exit of the
block. -/
def file_transaction_path (final_path : String) : String :=
  "tx/" ++ final_path

/-- Line 209 of the source: inside the `file_transaction(out_file)` block the
code opens `out_file` itself for writing — not the transactional path
`tx_out_file` bound by the block — so this is the path that receives the fastq
records. -/
def fastq_open_path (out_file _tx_out_file : String) : String :=
  out_file

/-- Filesystem state if the extraction loop stops after writing the first `k`
fastq entries: the opened path holds the concatenation of the first `k`
entries. -/
def fastq_after_partial_write (reads : List Read) (out_file : String)
    (fs : FileSys) (k : Nat) : FileSys :=
  fsWrite fs (fastq_open_path out_file (file_transaction_path out_file))
    (String.join ((reads.take k).map fastq_entry))

/-! ## Helper lemmas -/

theorem takewhileCount_enumFrom {α : Type} (m : Nat) (l : List α) :
    ∀ (s : Nat), s ≤ m + 1 →
      (takewhileCount (fun i => decide (i ≤ m)) (List.enumFrom s l)).2 =
        min l.length (m + 2 - s) ∧
      (takewhileCount (fun i => decide (i ≤ m)) (List.enumFrom s l)).1.length =
        min l.length (m + 1 - s) := by
  induction l with
  | nil => intro s hs; simp [takewhileCount]
  | cons a l ih =>
    intro s hs
    by_cases h : s ≤ m
    · obtain ⟨ih2, ih1⟩ := ih (s + 1) (by omega)
      simp only [List.enumFrom, takewhileCount, decide_eq_true_eq, if_pos h, List.length_cons]
      constructor
      · rw [ih2]; omega
      · rw [ih1]; omega
    · have hs1 : s = m + 1 := by omega
      simp only [List.enumFrom, takewhileCount, decide_eq_true_eq, if_neg h,
        List.length_cons, List.length_nil]
      omega

theorem count_fastq_scan_eq {α : Type} (records : List α) (m : Nat) :
    (_count_fastq_scan records m).2 = min records.length (m + 2) ∧
    _count_fastq_reads records m = min records.length (m + 1) := by
  have h := takewhileCount_enumFrom m records 0 (by omega)
  constructor
  · simpa [_count_fastq_scan, List.enum] using h.1
  · simpa [_count_fastq_reads, _count_fastq_scan, List.enum] using h.2

theorem count_lt_iff {α : Type} (records : List α) (m : Nat) :
    _count_fastq_reads records m < m ↔ records.length < m := by
  have h := (count_fastq_scan_eq records m).2
  rw [h]; omega

instance : IsTotal String (fun a b => a.data ≤ b.data) :=
  ⟨fun a b => le_total a.data b.data⟩

instance : IsTrans String (fun a b => a.data ≤ b.data) :=
  ⟨fun _ _ _ hab hbc => le_trans hab hbc⟩

theorem find?_min_of_sorted {p : String → Bool} {l : List String}
    (hs : List.Sorted (fun a b : String => a.data ≤ b.data) l) {b : String}
    (hf : l.find? p = some b) : ∀ x ∈ l, p x = true → b.data ≤ x.data := by
  induction l with
  | nil => simp at hf
  | cons a l ih =>
    rw [List.sorted_cons] at hs
    cases hpa : p a with
    | true =>
      rw [List.find?_cons_of_pos _ hpa] at hf
      injection hf with hb
      subst hb
      intro x hx hpx
      rcases List.mem_cons.mp hx with hxa | hxl
      · subst hxa; exact le_refl _
      · exact hs.1 x hxl
    | false =>
      rw [List.find?_cons_of_neg _ (by simp [hpa])] at hf
      intro x hx hpx
      rcases List.mem_cons.mp hx with hxa | hxl
      · subst hxa; simp [hpa] at hpx
      · exact ih hs.2 hf x hxl hpx

/-! ## Claim theorems -/

/-- Claim C1 (coordinate remap contract): `_remap_cortex_out` processes the
lines of the region-local result in order, dropping exactly the header lines
that begin with `##fileDate`, passing every other `#` header line through
unchanged, and rewriting each data line by replacing its first column with the
region's contig, adding `start - 1` to the integer in its second column, and
leaving all remaining columns unchanged (so region start 1000 with local
position 50 yields global position 1049). -/
theorem c1_remap_contract (region : Region) (lines : List String) :
    _remap_cortex_out region lines =
      (lines.filter (fun l => !strStartsWith l "##fileDate")).mapM
        (fun l => if strStartsWith l "#" then some l
                  else _remap_vcf_line l region.contig (region.start - 1)) ∧
    ∀ (line c0 pos : String) (rest : List String) (n : Int),
      splitTab line = c0 :: pos :: rest → parseInt? pos = some n →
      _remap_vcf_line line region.contig (region.start - 1) =
        some (String.intercalate "\t"
          (region.contig :: toString (n + (region.start - 1)) :: rest)) := by
  constructor
  · unfold _remap_cortex_out
    induction lines with
    | nil => rfl
    | cons l rest ih =>
      cases hfd : strStartsWith l "##fileDate" with
      | true =>
        simp only [remapLoop, hfd, if_true, List.filter_cons, Bool.not_true,
          Bool.false_eq_true, if_false]
        exact ih
      | false =>
        cases hh : strStartsWith l "#" with
        | true =>
          simp only [remapLoop, hfd, hh, Bool.false_eq_true, if_false, if_true,
            List.filter_cons, Bool.not_false, List.mapM_cons]
          rw [ih]
          cases hres : ((rest.filter (fun l => !strStartsWith l "##fileDate")).mapM
              (fun l => if strStartsWith l "#" then some l
                        else _remap_vcf_line l region.contig (region.start - 1))) with
          | none => simp [hres]
          | some ls => simp [hres]
        | false =>
          simp only [remapLoop, hfd, hh, Bool.false_eq_true, if_false,
            List.filter_cons, Bool.not_false, if_true, List.mapM_cons]
          rw [ih]
          cases hrl : _remap_vcf_line l region.contig (region.start - 1) with
          | none => simp [hrl]
          | some la =>
            cases hres : ((rest.filter (fun l => !strStartsWith l "##fileDate")).mapM
                (fun l => if strStartsWith l "#" then some l
                          else _remap_vcf_line l region.contig (region.start - 1))) with
            | none => simp [hrl, hres]
            | some ls => simp [hrl, hres]
  · intro line c0 pos rest n hsplit hn
    unfold _remap_vcf_line
    rw [hsplit]
    simp [hn]

/-- Witness for C1: a concrete data line `"local\t50\tA\tC"` remapped into
region `chr1` starting at 1000 becomes `"chr1\t1049\tA\tC"`. -/
theorem c1_remap_contract_witness :
    _remap_vcf_line "local\t50\tA\tC" "chr1" ((1000 : Int) - 1) =
      some "chr1\t1049\tA\tC" := by
  have h := (c1_remap_contract ⟨"chr1", 1000, 2000⟩ []).2
    "local\t50\tA\tC" "local" "50" ["A", "C"] 50 (by decide) (by decide)
  exact h.trans (by decide)

/-- Claim C3 is false of the code (code bug): inside the
`file_transaction(out_file)` block the extraction loop opens `out_file` itself,
not the transactional path `tx_out_file`, so with two reads and a crash after
the first record the canonical path holds a partial artifact and the
transactional temporary location holds nothing. -/
theorem c3_transaction_code_bug :
    fastq_open_path "sample.fastq" (file_transaction_path "sample.fastq") = "sample.fastq" ∧
    file_transaction_path "sample.fastq" ≠ "sample.fastq" ∧
    fsRead? (fastq_after_partial_write
        [⟨"r1", "AC", "II", false⟩, ⟨"r2", "GT", "JJ", false⟩] "sample.fastq" [] 1)
      "sample.fastq" = some (fastq_entry ⟨"r1", "AC", "II", false⟩) ∧
    fastq_entry ⟨"r1", "AC", "II", false⟩ ≠
      String.join ([⟨"r1", "AC", "II", false⟩, ⟨"r2", "GT", "JJ", false⟩].map fastq_entry) ∧
    fsRead? (fastq_after_partial_write
        [⟨"r1", "AC", "II", false⟩, ⟨"r2", "GT", "JJ", false⟩] "sample.fastq" [] 1)
      (file_transaction_path "sample.fastq") = none := by
  decide

set_option maxRecDepth 8000 in
/-- Claim C5 as stated is false: counting a 702-record file with
`min_reads = 700` pulls all 702 records from the underlying iterator —
`itertools.takewhile` keeps indices `0..700` (701 records) and must pull a
702nd record, index 701, to see the predicate fail — which exceeds the claimed
bound of `min_reads + 1 = 701`. -/
theorem c5_early_exit_counterexample :
    (_count_fastq_scan (List.range 702) min_reads).2 = 702 ∧
    ¬ (702 ≤ min_reads + 1) := by
  have h := count_fastq_scan_eq (List.range 702) min_reads
  refine ⟨h.1.trans (by decide), by decide⟩

/-- Claim C5 amended: the counting operation stops early, but its bound is
`min_reads + 2`, not `min_reads + 1`: on a file of `N` records it pulls exactly
`min N (min_reads + 2)` records from the underlying source (so a 5000-record
file with `min_reads = 700` materializes only 702 records), and the count it
returns is `min N (min_reads + 1)`. -/
theorem c5_early_exit_amended {α : Type} (records : List α) (m : Nat) :
    (_count_fastq_scan records m).2 = min records.length (m + 2) ∧
    (_count_fastq_scan records m).2 ≤ m + 2 ∧
    _count_fastq_reads records m = min records.length (m + 1) := by
  have h := count_fastq_scan_eq records m
  exact ⟨h.1, by rw [h.1]; omega, h.2⟩

/-- Claim C6 as stated is false: `_get_cortex_binary` walks the glob matches in
`sorted` (string, i.e. lexicographic) order, so with available capacities 31 and
127 and requested k-mer size 31 it selects the capacity-127 executable — whose
path sorts first because "1" < "3" — even though the capacity-31 executable
satisfies the request with a strictly smaller capacity. -/
theorem c6_binary_selection_counterexample :
    _get_cortex_binary 31 ["/cortex/bin/cortex_var_31_c1", "/cortex/bin/cortex_var_127_c1"] =
      some "/cortex/bin/cortex_var_127_c1" ∧
    cortexBinKmer "/cortex/bin/cortex_var_31_c1" = 31 ∧
    cortexBinKmer "/cortex/bin/cortex_var_127_c1" = 127 ∧
    31 ≤ (31 : Nat) ∧ (31 : Nat) < 127 := by
  refine ⟨by decide, by decide, by decide, by decide, by decide⟩

/-- Claim C6 amended: the executable selected is the one whose full path is
lexicographically smallest among those whose capacity is at least the requested
k-mer size (which coincides with the smallest satisfying capacity exactly when,
as in the [31, 51, 71] example, the capacity fields sort numerically as
strings). -/
theorem c6_binary_selection_amended (kmer : Nat) (bins : List String) (b : String)
    (h : _get_cortex_binary kmer bins = some b) :
    b ∈ bins ∧ kmer ≤ cortexBinKmer b ∧
    ∀ x ∈ bins, kmer ≤ cortexBinKmer x → b.data ≤ x.data := by
  have hperm := List.perm_insertionSort (fun a b : String => a.data ≤ b.data) bins
  have hsort := List.sorted_insertionSort (fun a b : String => a.data ≤ b.data) bins
  unfold _get_cortex_binary pySorted at h
  refine ⟨hperm.mem_iff.mp (List.mem_of_find?_eq_some h), ?_, ?_⟩
  · have hp := List.find?_some h
    simpa using hp
  · intro x hx hkx
    exact find?_min_of_sorted hsort h x (hperm.mem_iff.mpr hx) (by simpa using hkx)

/-- Witness for C6 (amended): with capacities [31, 51, 71] and requested size
31, the selected executable is the capacity-31 one — it satisfies the request
and its path is least among the satisfying candidates. -/
theorem c6_binary_selection_witness :
    "/d/bin/cortex_var_31_c1" ∈
      ["/d/bin/cortex_var_31_c1", "/d/bin/cortex_var_51_c1", "/d/bin/cortex_var_71_c1"] ∧
    31 ≤ cortexBinKmer "/d/bin/cortex_var_31_c1" ∧
    ∀ x ∈ ["/d/bin/cortex_var_31_c1", "/d/bin/cortex_var_51_c1", "/d/bin/cortex_var_71_c1"],
      31 ≤ cortexBinKmer x → ("/d/bin/cortex_var_31_c1").data ≤ x.data := by
  exact c6_binary_selection_amended 31
    ["/d/bin/cortex_var_31_c1", "/d/bin/cortex_var_51_c1", "/d/bin/cortex_var_71_c1"]
    "/d/bin/cortex_var_31_c1" (by decide)

/-- Claim C7 (output-discovery policy): after the subprocess exits, a single
glob match is returned as the result with no diagnostic; zero or more than one
matches yield `none` with a diagnostic; and downstream, a region whose tool
invocation discovers no unique output gets an empty-but-valid variant file
written at its deterministic path. -/
theorem c7_output_discovery (found : List String) :
    (∀ f, found = [f] → _run_cortex_output found = (some f, false)) ∧
    (found.length ≠ 1 → _run_cortex_output found = (none, true)) ∧
    (∀ cfg env region base run,
      _run_cortex_on_region cfg env region base = Except.ok run →
      env.outFileExists = false →
      min_reads ≤ _count_fastq_reads (env.fastqReads.map fastq_entry) min_reads →
      (_run_cortex_output env.globMatches).1 = none →
      run.writes = [RegionAction.wroteEmpty (region_out_file region base)]) := by
  refine ⟨?_, ?_, ?_⟩
  · intro f hf
    subst hf
    simp [_run_cortex_output]
  · intro hlen
    simp [_run_cortex_output, hlen]
  · intro cfg env region base run h hne hcount hglob
    unfold _run_cortex_on_region at h
    cases hcn : (cfg.cortex.isNone || cfg.stampy.isNone) with
    | true => rw [hcn] at h; simp at h
    | false =>
      rw [hcn] at h
      rw [hne] at h
      have hnc : ¬ _count_fastq_reads (env.fastqReads.map fastq_entry) min_reads < min_reads := by
        omega
      rw [hglob] at h
      simp [hnc] at h
      rw [← h]

/-- Witness for C7: an empty match list yields `none` plus the diagnostic. -/
theorem c7_output_discovery_witness :
    _run_cortex_output [] = (none, true) := by
  exact (c7_output_discovery []).2.1 (by decide)

/-- Claim C8 (reverse-strand normalization): the fastq record emitted for a
reverse-strand read carries the reverse complement of the read's bases and the
reversal (only) of its quality string, with position `i` of each emitted field
corresponding to position `length - 1 - i` of the original field (lockstep);
reads without the flag are emitted unchanged. -/
theorem c8_reverse_strand (r : Read) :
    (r.is_reverse = false →
      fastq_entry r = "@" ++ r.qname ++ "\n" ++ r.seq ++ "\n+\n" ++ r.qual ++ "\n") ∧
    (r.is_reverse = true →
      (fastq_entry r = "@" ++ r.qname ++ "\n" ++
          String.mk (r.seq.data.reverse.map complementChar) ++ "\n+\n" ++
          String.mk r.qual.data.reverse ++ "\n") ∧
      (∀ i, i < r.seq.data.length →
        ((r.seq.data.map complementChar).reverse)[i]? =
          (r.seq.data[r.seq.data.length - 1 - i]?).map complementChar) ∧
      (∀ j, j < r.qual.data.length →
        (r.qual.data.reverse)[j]? = r.qual.data[r.qual.data.length - 1 - j]?)) := by
  refine ⟨fun hrev => ?_, fun hrev => ⟨?_, ?_, ?_⟩⟩
  · simp [fastq_entry, hrev]
  · simp [fastq_entry, hrev, reverse_complement, strReverse, List.map_reverse]
  · intro i hi
    rw [List.getElem?_reverse (by simpa using hi), List.getElem?_map]
    simp
  · intro j hj
    rw [List.getElem?_reverse hj]

/-- Witness for C8: bases "AACG" with quality "1234" on the reverse strand are
emitted as bases "CGTT" with quality "4321". -/
theorem c8_reverse_strand_witness :
    fastq_entry ⟨"r1", "AACG", "1234", true⟩ = "@r1\nCGTT\n+\n4321\n" := by
  have h := ((c8_reverse_strand ⟨"r1", "AACG", "1234", true⟩).2 rfl).1
  exact h.trans (by decide)

/-- Claim C2 (per-region output totality): with the toolchain paths configured,
processing any region succeeds and returns the region's deterministic output
path; when that file does not already exist, exactly one variant file is
written, at exactly that path — via remapping when the tool produced a unique
result, via empty-VCF synthesis when the region had too few reads or the tool
produced zero or ambiguously-many outputs. -/
theorem c2_region_totality (cfg : CortexConfig) (env : RegionEnv) (region : Region)
    (base : String) (hc : cfg.cortex ≠ none) (hs : cfg.stampy ≠ none) :
    ∃ run, _run_cortex_on_region cfg env region base = Except.ok run ∧
      run.out_file = region_out_file region base ∧
      (env.outFileExists = true → run.writes = []) ∧
      (env.outFileExists = false →
        (∃ w, run.writes = [w] ∧ actionPath w = region_out_file region base) ∧
        ((_count_fastq_reads (env.fastqReads.map fastq_entry) min_reads < min_reads ∨
            (_run_cortex_output env.globMatches).1 = none) →
          run.writes = [RegionAction.wroteEmpty (region_out_file region base)]) ∧
        (∀ src, ¬ _count_fastq_reads (env.fastqReads.map fastq_entry) min_reads < min_reads →
          (_run_cortex_output env.globMatches).1 = some src →
          run.writes = [RegionAction.remapped src (region_out_file region base)])) := by
  have hcn : (cfg.cortex.isNone || cfg.stampy.isNone) = false := by
    cases hcc : cfg.cortex with
    | none => exact absurd hcc hc
    | some c =>
      cases hss : cfg.stampy with
      | none => exact absurd hss hs
      | some s => simp
  unfold _run_cortex_on_region
  rw [hcn]
  simp only [Bool.false_eq_true, if_false]
  cases henv : env.outFileExists with
  | true =>
    simp only [if_true]
    refine ⟨_, rfl, rfl, fun _ => rfl, fun hfalse => ?_⟩
    cases hfalse
  | false =>
    simp only [Bool.false_eq_true, if_false]
    by_cases hcount : _count_fastq_reads (env.fastqReads.map fastq_entry) min_reads < min_reads
    · rw [if_pos hcount]
      refine ⟨_, rfl, rfl, fun ht => ?_, fun _ => ?_⟩
      · cases ht
      · exact ⟨⟨RegionAction.wroteEmpty (region_out_file region base), rfl, rfl⟩,
          fun _ => rfl, fun src hnc _ => absurd hcount hnc⟩
    · rw [if_neg hcount]
      cases hglob : (_run_cortex_output env.globMatches).1 with
      | none =>
        refine ⟨_, rfl, rfl, fun ht => ?_, fun _ => ?_⟩
        · cases ht
        · refine ⟨⟨RegionAction.wroteEmpty (region_out_file region base), rfl, rfl⟩,
            fun _ => rfl, fun src _ hsome => ?_⟩
          cases hsome
      | some f =>
        refine ⟨_, rfl, rfl, fun ht => ?_, fun _ => ?_⟩
        · cases ht
        · refine ⟨⟨RegionAction.remapped f (region_out_file region base), rfl, rfl⟩,
            fun hd => ?_, fun src hnc hsome => ?_⟩
          · rcases hd with h1 | h2
            · exact absurd h1 hcount
            · cases h2
          · injection hsome with hfs
            rw [hfs]

/-- Witness for C2: a concrete configured region whose output already exists is
processed successfully and returns its deterministic path. -/
theorem c2_region_totality_witness :
    ∃ run, _run_cortex_on_region ⟨some "/usr/cortex", some "/usr/stampy", some "/usr/vcftools"⟩
        ⟨true, [], []⟩ ⟨"chr1", 1, 100⟩ "/data/out.vcf" = Except.ok run ∧
      run.out_file = region_out_file ⟨"chr1", 1, 100⟩ "/data/out.vcf" := by
  obtain ⟨run, h1, h2, _⟩ := c2_region_totality
    ⟨some "/usr/cortex", some "/usr/stampy", some "/usr/vcftools"⟩
    ⟨true, [], []⟩ ⟨"chr1", 1, 100⟩ "/data/out.vcf" (by simp) (by simp)
  exact ⟨run, h1, h2⟩

/-- Claim C4 (read-depth gate decision): for a region whose output does not yet
exist, the toolchain is invoked if and only if the extracted per-region file
holds at least `min_reads` (700) records; below the threshold, the region
short-circuits to an empty-but-valid variant file with no tool invocation.
(The third conjunct relates the early-exit count to the record total.) -/
theorem c4_read_depth_gate (cfg : CortexConfig) (env : RegionEnv) (region : Region)
    (base : String) (run : RegionRun)
    (h : _run_cortex_on_region cfg env region base = Except.ok run)
    (hne : env.outFileExists = false) :
    (run.toolInvoked = true ↔ min_reads ≤ (env.fastqReads.map fastq_entry).length) ∧
    ((env.fastqReads.map fastq_entry).length < min_reads →
      run.toolInvoked = false ∧
      run.writes = [RegionAction.wroteEmpty (region_out_file region base)]) ∧
    (_count_fastq_reads (env.fastqReads.map fastq_entry) min_reads < min_reads ↔
      (env.fastqReads.map fastq_entry).length < min_reads) := by
  have hiff := count_lt_iff (env.fastqReads.map fastq_entry) min_reads
  unfold _run_cortex_on_region at h
  cases hcn : (cfg.cortex.isNone || cfg.stampy.isNone) with
  | true => rw [hcn] at h; simp at h
  | false =>
    rw [hcn] at h
    simp only [Bool.false_eq_true, if_false] at h
    rw [hne] at h
    simp only [Bool.false_eq_true, if_false] at h
    by_cases hcount : _count_fastq_reads (env.fastqReads.map fastq_entry) min_reads < min_reads
    · rw [if_pos hcount] at h
      injection h with h2
      subst h2
      refine ⟨⟨fun hfalse => ?_, fun hle => ?_⟩, fun _ => ⟨rfl, rfl⟩, hiff⟩
      · cases hfalse
      · exact absurd (hiff.mp hcount) (Nat.not_lt.mpr hle)
    · rw [if_neg hcount] at h
      have hlen : ¬ (env.fastqReads.map fastq_entry).length < min_reads :=
        fun hl => hcount (hiff.mpr hl)
      cases hglob : (_run_cortex_output env.globMatches).1 with
      | some f =>
        rw [hglob] at h
        injection h with h2
        subst h2
        exact ⟨⟨fun _ => Nat.not_lt.mp hlen, fun _ => rfl⟩, fun hl => absurd hl hlen, hiff⟩
      | none =>
        rw [hglob] at h
        injection h with h2
        subst h2
        exact ⟨⟨fun _ => Nat.not_lt.mp hlen, fun _ => rfl⟩, fun hl => absurd hl hlen, hiff⟩

/-- Witness for C4: a configured region with an empty read set (0 < 700
records) short-circuits: no tool invocation, one empty VCF written. -/
theorem c4_read_depth_gate_witness :
    (RegionRun.toolInvoked ⟨region_out_file ⟨"chr1", 1, 100⟩ "/data/out.vcf",
        [RegionAction.wroteEmpty (region_out_file ⟨"chr1", 1, 100⟩ "/data/out.vcf")],
        false⟩ = false) ∧
    (RegionRun.writes ⟨region_out_file ⟨"chr1", 1, 100⟩ "/data/out.vcf",
        [RegionAction.wroteEmpty (region_out_file ⟨"chr1", 1, 100⟩ "/data/out.vcf")],
        false⟩ =
      [RegionAction.wroteEmpty (region_out_file ⟨"chr1", 1, 100⟩ "/data/out.vcf")]) := by
  have h := c4_read_depth_gate ⟨some "/usr/cortex", some "/usr/stampy", none⟩
    ⟨false, [], []⟩ ⟨"chr1", 1, 100⟩ "/data/out.vcf"
    ⟨region_out_file ⟨"chr1", 1, 100⟩ "/data/out.vcf",
      [RegionAction.wroteEmpty (region_out_file ⟨"chr1", 1, 100⟩ "/data/out.vcf")], false⟩
    rfl rfl
  exact h.2.1 (by decide)

/-- Claim C9 (whole-run idempotence): when the final merged output already
exists, the top-level entry performs no work — no indexing, no region
processing, no merging, no variant-file writes — and returns the resolved
output path unchanged. -/
theorem c9_whole_run_idempotence (align_bam : String) (cfg : CortexConfig)
    (vr : Option (List Region)) (env : RunEnv) (out_file0 : Option String)
    (h : env.outExists = true) :
    run_cortex align_bam cfg vr env out_file0 =
      Except.ok (resolved_out_file align_bam out_file0, []) ∧
    ∀ f, out_file0 = some f →
      run_cortex align_bam cfg vr env out_file0 = Except.ok (f, []) := by
  have h1 : run_cortex align_bam cfg vr env out_file0 =
      Except.ok (resolved_out_file align_bam out_file0, []) := by
    unfold run_cortex
    rw [h]
    simp
  exact ⟨h1, fun f hf => by rw [h1, hf]; rfl⟩

/-- Witness for C9: with the final output present, a concrete run returns the
caller-supplied path with an empty effect list. -/
theorem c9_whole_run_idempotence_witness :
    run_cortex "/data/sample.bam" ⟨none, none, none⟩ none
      ⟨true, fun _ => ⟨true, [], []⟩⟩ (some "/data/final.vcf") =
      Except.ok ("/data/final.vcf", []) := by
  exact (c9_whole_run_idempotence "/data/sample.bam" ⟨none, none, none⟩ none
    ⟨true, fun _ => ⟨true, [], []⟩⟩ (some "/data/final.vcf") rfl).2 "/data/final.vcf" rfl

/-- Claim C10 (implicit default output naming): whenever the top-level entry
returns a path, it is exactly the path resolved at entry — the caller's path
when one was supplied, and the alignment path with its extension replaced by
"-cortex.vcf" when called with none. -/
theorem c10_output_naming (align_bam : String) (cfg : CortexConfig)
    (vr : Option (List Region)) (env : RunEnv) (out_file0 : Option String)
    (p : String) (effects : List RunEffect)
    (h : run_cortex align_bam cfg vr env out_file0 = Except.ok (p, effects)) :
    p = resolved_out_file align_bam out_file0 ∧
    (out_file0 = none → p = splitextRoot align_bam ++ "-cortex.vcf") ∧
    ∀ f, out_file0 = some f → p = f := by
  have hp : p = resolved_out_file align_bam out_file0 := by
    unfold run_cortex at h
    cases henv : env.outExists with
    | true =>
      rw [henv] at h
      simp only [if_true] at h
      injection h with h2
      injection h2 with hp2 he2
      exact hp2.symm
    | false =>
      rw [henv] at h
      simp only [Bool.false_eq_true, if_false] at h
      cases vr with
      | none => cases h
      | some regions =>
        simp only [bind, Except.bind] at h
        cases hm : regions.mapM
            (fun r => _run_cortex_on_region cfg (env.renv r) r
              (resolved_out_file align_bam out_file0)) with
        | error e => rw [hm] at h; cases h
        | ok runs =>
          rw [hm] at h
          simp only [pure, Except.pure] at h
          injection h with h2
          injection h2 with hp2 he2
          exact hp2.symm
  refine ⟨hp, fun h0 => ?_, fun f hf => ?_⟩
  · rw [hp, h0]; rfl
  · rw [hp, hf]; rfl

/-- Witness for C10: called with `out_file = None` on `/data/sample.bam`, the
resolved and returned path is `/data/sample-cortex.vcf`. -/
theorem c10_output_naming_witness :
    "/data/sample-cortex.vcf" = resolved_out_file "/data/sample.bam" none ∧
    "/data/sample-cortex.vcf" = splitextRoot "/data/sample.bam" ++ "-cortex.vcf" := by
  have h := c10_output_naming "/data/sample.bam" ⟨none, none, none⟩ none
    ⟨true, fun _ => ⟨true, [], []⟩⟩ none "/data/sample-cortex.vcf" [] rfl
  exact ⟨h.1, h.2.1 rfl⟩

end BcbioCortex
